import Mathlib

/-!
Verification of the query-resolution pipeline of `src/app.py`.

Python strings are modelled as `List Char`; the Python string methods used
by the source (`lower`, `strip`, `title`, `replace`, `split`, the `in`
substring test, `startswith`-style prefix tests) are embedded as structural
recursions over `List Char` so that every definition evaluates by `decide`.
Machine-level concerns (HTTP transport, JSON encoding) are abstracted: the
upstream API is a function from the constructed filter parameters to either
a record list or an error message, and each JSON response of the Flask
route is a constructor of an explicit response type.
-/

/-- Python `str` is modelled as a list of characters. -/
abbrev Str := List Char

/-- `str.lower()` (character-wise, ASCII). -/
def pyLower (s : Str) : Str := s.map Char.toLower

/-- `str.strip()`: drop whitespace from both ends. -/
def pyStrip (s : Str) : Str :=
  ((s.dropWhile Char.isWhitespace).reverse.dropWhile Char.isWhitespace).reverse

/-- Helper for `str.title()`: the `Bool` records whether the previous
character was alphabetic (cased). -/
def pyTitleAux : Bool → Str → Str
  | _, [] => []
  | prevAlpha, c :: cs =>
    if c.isAlpha then
      (if prevAlpha then c.toLower else c.toUpper) :: pyTitleAux true cs
    else c :: pyTitleAux false cs

/-- `str.title()`: uppercase each alphabetic character that follows a
non-alphabetic one, lowercase the rest (ASCII model). -/
def pyTitle (s : Str) : Str := pyTitleAux false s

/-- Python `s.startswith(p)` / prefix test used by the scanning loops. -/
def startsWith : Str → Str → Bool
  | [], _ => true
  | _ :: _, [] => false
  | p :: ps, c :: cs => p == c && startsWith ps cs

/-- Python `p in s`: contiguous-substring test. -/
def containsSub (pat : Str) : Str → Bool
  | [] => pat.isEmpty
  | c :: cs => startsWith pat (c :: cs) || containsSub pat cs

/-- Python `s.endswith(p)`. -/
def endsWith (pat s : Str) : Bool := startsWith pat.reverse s.reverse

/-- Scanner for `str.replace(old, new)` (left-to-right, non-overlapping,
greedy).  The `Nat` counts characters still to be skipped because they
belong to an already-matched occurrence of `old`. -/
def replaceAux (old new : Str) : Str → Nat → Str
  | [], _ => []
  | _ :: cs, k + 1 => replaceAux old new cs k
  | c :: cs, 0 =>
    if startsWith old (c :: cs) then
      new ++ replaceAux old new cs (old.length - 1)
    else c :: replaceAux old new cs 0

/-- Python `s.replace(old, new)`. -/
def pyReplace (old new s : Str) : Str := replaceAux old new s 0

/-- Scanner for `str.split(sep)` (left-to-right, non-overlapping, greedy).
The head of the returned list is always the part currently being built;
the `Nat` counts characters still to be skipped because they belong to an
already-matched occurrence of `sep`. -/
def splitAux (sep : Str) : Str → Nat → List Str
  | [], _ => [[]]
  | _ :: cs, k + 1 => splitAux sep cs k
  | c :: cs, 0 =>
    if startsWith sep (c :: cs) then
      [] :: splitAux sep cs (sep.length - 1)
    else
      match splitAux sep cs 0 with
      | [] => [[c]]
      | p :: ps => (c :: p) :: ps

/-- Python `s.split(sep)` for a non-empty separator. -/
def pySplit (sep s : Str) : List Str := splitAux sep s 0

/-- The literal separator `" in "` from `src/app.py` line 33. -/
def sepIn : Str := [' ', 'i', 'n', ' ']

/-- The literal `"price of "` removed at `src/app.py` line 36. -/
def priceOfStr : Str := ['p', 'r', 'i', 'c', 'e', ' ', 'o', 'f', ' ']

/-- Upstream record (`data.gov.in` mandi price row); every field is
optional because the upstream payload does not guarantee presence
(the route reads them with `rec.get(..., "")`). -/
structure PriceRecord where
  market : Option Str
  min_price : Option Str
  max_price : Option Str
  modal_price : Option Str
  arrival_date : Option Str
deriving DecidableEq

/-- The filter parameters built at `src/app.py` lines 39-45.  The
`api-key` and `format=json` entries are process-wide constants from the
environment and are omitted from the model. -/
structure UpstreamParams where
  state : Str
  commodity : Str
  limit : Nat
deriving DecidableEq

/-- The upstream API: one GET request per invocation, yielding either the
decoded `records` array or a failure message (transport error, non-2xx
status, or malformed payload - lines 48-61 treat all of these as error
JSON). -/
def Upstream := UpstreamParams → Except Str (List PriceRecord)

/-- Result of lines 32-37 of `market_price`. -/
inductive ParseResult where
  | formatError
  | unpackExn
  | parsed (commodity state : Str)
deriving DecidableEq

/-- Lines 32-37 of `market_price`: lowercase the query, require the
literal `" in "`, strip `"price of "`, split on `" in "`, two-way
unpack (which raises `ValueError` outside the `try` block when the split
does not produce exactly two parts), and strip both parts. -/
def parseQuery (q : Str) : ParseResult :=
  let ql := pyLower q
  if containsSub sepIn ql then
    match pySplit sepIn (pyReplace priceOfStr [] ql) with
    | [c, s] => ParseResult.parsed (pyStrip c) (pyStrip s)
    | _ => ParseResult.unpackExn
  else ParseResult.formatError

/-- The JSON body returned by `market_price`: the format-error body
(line 34), the failure body built in the `except` branches (lines 58-61),
or the success body (lines 52-56). -/
inductive ToolBody where
  | formatError
  | apiError (msg : Str)
  | ok (crop state : Str) (records : List PriceRecord)
deriving DecidableEq

/-- `market_price` either returns a JSON string or lets an exception
escape (the `ValueError` of the two-way unpack at line 36, which is
outside the `try`). -/
inductive ToolOutcome where
  | ret (body : ToolBody)
  | exn
deriving DecidableEq

/-- `"Format error. Use price of [commodity] in [state]"` (line 34). -/
def formatErrorMsg : Str := String.toList "Format error. Use price of [commodity] in [state]"

/-- Message prefix of line 59. -/
def apiFailedPre : Str := String.toList "API request failed: "

/-- `market_price` (lines 27-61).  Returns the outcome together with the
list of upstream calls issued (with their parameters), so that "no
network call" is expressible. -/
def marketPrice (u : Upstream) (q : Str) : ToolOutcome × List UpstreamParams :=
  match parseQuery q with
  | ParseResult.formatError => (ToolOutcome.ret ToolBody.formatError, [])
  | ParseResult.unpackExn => (ToolOutcome.exn, [])
  | ParseResult.parsed c s =>
    let p : UpstreamParams := ⟨pyTitle s, pyTitle c, 100⟩
    match u p with
    | Except.ok records => (ToolOutcome.ret (ToolBody.ok c s records), [p])
    | Except.error e => (ToolOutcome.ret (ToolBody.apiError (apiFailedPre ++ e)), [p])

/-- The JSON request body of the `/api/query` route: optional `commodity`,
`state`, `market` (the natural-language `question`/agent path is outside
the pipeline modelled here). -/
structure Req where
  commodity : Option Str
  state : Option Str
  market : Option Str
deriving DecidableEq

/-- Python falsiness of `data.get(...)`: absent key (`None`) or empty
string. -/
def isFalsy : Option Str → Bool
  | none => true
  | some [] => true
  | some (_ :: _) => false

/-- Fixed-key display row built at lines 153-159; the Lean fields stand
for the JSON keys `Market`, `Min Price`, `Max Price`, `Modal Price`,
`Date`. -/
structure FormattedRecord where
  market : Str
  min_price : Str
  max_price : Str
  modal_price : Str
  date : Str
deriving DecidableEq

/-- Lines 153-159: project one record, defaulting each absent field to
the empty string. -/
def formatRecord (rec : PriceRecord) : FormattedRecord :=
  ⟨rec.market.getD [], rec.min_price.getD [], rec.max_price.getD [],
   rec.modal_price.getD [], rec.arrival_date.getD []⟩

/-- `fuzzywuzzy.process.extractOne(query, choices)` modelled with an
opaque scorer: `none` on an empty choice list, otherwise the first
choice of maximal score (Python `max` keeps the earliest maximum). -/
def extractOne (score : Str → Str → Nat) (q : Str) : List Str → Option Str
  | [] => none
  | c :: cs =>
    some (cs.foldl (fun best x => if score q best < score q x then x else best) c)

/-- Lines 146-148: fuzzy-match the requested market against the record
markets, then keep the records whose market equals the best match.
`extractOne` returns `None` on an empty record set, so the two-way unpack
at line 147 raises `TypeError`; that is the `none` result here. -/
def marketStep (score : Str → Str → Nat) (market : Str)
    (records : List PriceRecord) : Option (List PriceRecord) :=
  match extractOne score market (records.map (fun rec => rec.market.getD [])) with
  | none => none
  | some best => some (records.filter (fun rec => rec.market == some best))

/-- Line 145: the market-disambiguation step runs only when `market` is
truthy. -/
def pipelineAfterMarket (score : Str → Str → Nat) (r : Req)
    (records : List PriceRecord) : Option (List PriceRecord) :=
  if isFalsy r.market then some records
  else marketStep score (r.market.getD []) records

/-- JSON body of a route response. -/
inductive RouteBody where
  | error (msg : Str)
  | table (crop state : Str) (records : List FormattedRecord)
deriving DecidableEq

/-- HTTP status plus JSON body of a route response. -/
structure RouteResponse where
  status : Nat
  body : RouteBody
deriving DecidableEq

/-- `"Commodity & State are required"` (line 134). -/
def requiredMsg : Str := String.toList "Commodity & State are required"

/-- `"No records found"` (line 151). -/
def noRecordsMsg : Str := String.toList "No records found"

/-- The catch-all body of lines 170-171; the Python code appends the
exception text after `"Unexpected error: "`. -/
def unexpectedMsg : Str := String.toList "Unexpected error"

/-- Line 136: `f"price of {commodity} in {state}"`. -/
def routeInput (r : Req) : Str :=
  priceOfStr ++ r.commodity.getD [] ++ sepIn ++ r.state.getD []

/-- The `/api/query` route (lines 119-171), manual mode: validate the
request, invoke `market_price`, pass tool errors through with status 200,
run market disambiguation, fail with 404 on an empty record set, and
otherwise return the formatted table with status 200; any escaped
exception becomes the catch-all 200 error body. -/
def queryRoute (score : Str → Str → Nat) (u : Upstream) (r : Req) : RouteResponse :=
  if isFalsy r.commodity || isFalsy r.state then
    ⟨400, RouteBody.error requiredMsg⟩
  else
    match (marketPrice u (routeInput r)).1 with
    | ToolOutcome.exn => ⟨200, RouteBody.error unexpectedMsg⟩
    | ToolOutcome.ret ToolBody.formatError => ⟨200, RouteBody.error formatErrorMsg⟩
    | ToolOutcome.ret (ToolBody.apiError msg) => ⟨200, RouteBody.error msg⟩
    | ToolOutcome.ret (ToolBody.ok crop st records) =>
      match pipelineAfterMarket score r records with
      | none => ⟨200, RouteBody.error unexpectedMsg⟩
      | some records2 =>
        if records2.isEmpty then ⟨404, RouteBody.error noRecordsMsg⟩
        else ⟨200, RouteBody.table crop st (records2.map formatRecord)⟩

/-- A stub upstream that always answers with zero records. -/
def emptyUpstream : Upstream := fun _ => Except.ok []

/-- A stub similarity scorer. -/
def stubScore : Str → Str → Nat := fun _ _ => 0

/-- Conditions under which the round trip through the canonical string
`"price of <commodity> in <state>"` parses back to the same pair: neither
lower-cased component contains the separator, the combined string does
not contain `"price of "`, and the lower-cased commodity does not end in
`" in"` (which would merge with the explicit separator). -/
def validPair (c s : Str) : Bool :=
  !(containsSub sepIn (pyLower c)) && !(containsSub sepIn (pyLower s)) &&
  !(containsSub priceOfStr (pyLower c ++ sepIn ++ pyLower s)) &&
  !(endsWith [' ', 'i', 'n'] (pyLower c))

/-- Lexicographic string comparison (Python `<=` on `str`, by code
point). -/
def strLe : Str → Str → Bool
  | [], _ => true
  | _ :: _, [] => false
  | a :: as, b :: bs =>
    if a.toNat < b.toNat then true
    else if b.toNat < a.toNat then false
    else strLe as bs

/-- Descending order on formatted records by their `Date` field. -/
def dateGe (a b : FormattedRecord) : Prop := strLe b.date a.date = true

instance : DecidableRel dateGe := fun a b => instDecidableEqBool (strLe b.date a.date) true

/-- Modelled from the spec: the historical-mode variant of the Result
Formatter is not present in `src/app.py` (the repository ships only the
near-real-time revision); per the spec it "additionally sorts records by
`arrival_date` descending using lexicographic string comparison on the
date field".  A stable sort under `dateGe` models Python
`sorted(..., reverse=True)`. -/
def historicalSort (rs : List FormattedRecord) : List FormattedRecord :=
  List.insertionSort dateGe rs

/-- A sample upstream record whose only present field is the market name. -/
def puneRec : PriceRecord := ⟨some (String.toList "Pune"), none, none, none, none⟩

/-- A formatted record carrying only a date, for the historical-sort
scenario. -/
def histRec (d : String) : FormattedRecord := ⟨[], [], [], [], d.toList⟩

/-! ### String-scanner lemmas -/

theorem startsWith_self_append (p t : Str) : startsWith p (p ++ t) = true := by
  induction p with
  | nil => rfl
  | cons c cs ih => simp [startsWith, ih]

theorem containsSub_of_startsWith {p s : Str} (h : startsWith p s = true) :
    containsSub p s = true := by
  cases s with
  | nil =>
    cases p with
    | nil => rfl
    | cons c cs => simp [startsWith] at h
  | cons c cs => simp [containsSub, h]

theorem containsSub_append_left (a : Str) {p s : Str} (h : containsSub p s = true) :
    containsSub p (a ++ s) = true := by
  induction a with
  | nil => exact h
  | cons c cs ih => simp [containsSub, ih]

theorem pyLower_append (a b : Str) : pyLower (a ++ b) = pyLower a ++ pyLower b := by
  simp [pyLower]

theorem pyLower_priceOf : pyLower priceOfStr = priceOfStr := by decide

theorem pyLower_sepIn : pyLower sepIn = sepIn := by decide

theorem startsWith_lower : ∀ (p s : Str), pyLower p = p → startsWith p s = true →
    startsWith p (pyLower s) = true
  | [], _, _, _ => rfl
  | c :: cs, [], _, h => by simp [startsWith] at h
  | c :: cs, d :: ds, hp, h => by
    simp only [startsWith, Bool.and_eq_true, beq_iff_eq] at h
    obtain ⟨h1, h2⟩ := h
    simp only [pyLower, List.map_cons, List.cons.injEq] at hp
    obtain ⟨hp1, hp2⟩ := hp
    have hd : Char.toLower d = c := by rw [← h1, hp1]
    simp only [pyLower, List.map_cons, startsWith, hd, Bool.and_eq_true, beq_iff_eq]
    exact ⟨trivial, startsWith_lower cs ds hp2 h2⟩

theorem containsSub_lower : ∀ (s : Str) {p : Str}, pyLower p = p → containsSub p s = true →
    containsSub p (pyLower s) = true
  | [], p, _, h => h
  | c :: cs, p, hp, h => by
    simp only [containsSub, Bool.or_eq_true] at h
    rcases h with h | h
    · exact containsSub_of_startsWith (startsWith_lower p (c :: cs) hp h)
    · have := containsSub_lower cs hp h
      simp only [pyLower, List.map_cons, containsSub, Bool.or_eq_true]
      right
      simpa [pyLower] using this

theorem splitAux_skip (sep : Str) : ∀ (t b : Str),
    splitAux sep (t ++ b) t.length = splitAux sep b 0
  | [], _ => rfl
  | c :: ct, b => by
    show splitAux sep (ct ++ b) ct.length = splitAux sep b 0
    exact splitAux_skip sep ct b

theorem replaceAux_skip (old new : Str) : ∀ (t b : Str),
    replaceAux old new (t ++ b) t.length = replaceAux old new b 0
  | [], _ => rfl
  | c :: ct, b => by
    show replaceAux old new (ct ++ b) ct.length = replaceAux old new b 0
    exact replaceAux_skip old new ct b

theorem split_no_occur (sep : Str) : ∀ (s : Str), containsSub sep s = false →
    pySplit sep s = [s]
  | [], _ => rfl
  | c :: cs, h => by
    simp only [containsSub, Bool.or_eq_false_iff] at h
    obtain ⟨h1, h2⟩ := h
    have ih := split_no_occur sep cs h2
    simp only [pySplit] at ih ⊢
    simp only [splitAux, h1, Bool.false_eq_true, if_false, ih]

theorem replace_no_occur (old new : Str) : ∀ (s : Str), containsSub old s = false →
    pyReplace old new s = s
  | [], _ => rfl
  | c :: cs, h => by
    simp only [containsSub, Bool.or_eq_false_iff] at h
    obtain ⟨h1, h2⟩ := h
    have ih := replace_no_occur old new cs h2
    simp only [pyReplace] at ih ⊢
    simp only [replaceAux, h1, Bool.false_eq_true, if_false, ih]

theorem replace_head (o : Char) (ot new rest : Str) :
    replaceAux (o :: ot) new ((o :: ot) ++ rest) 0 =
      new ++ replaceAux (o :: ot) new rest 0 := by
  have h : startsWith (o :: ot) (o :: (ot ++ rest)) = true := by
    simpa using startsWith_self_append (o :: ot) rest
  show replaceAux (o :: ot) new (o :: (ot ++ rest)) 0 = new ++ replaceAux (o :: ot) new rest 0
  simp only [replaceAux, h, if_true]
  have hs : (o :: ot).length - 1 = ot.length := by simp
  rw [hs, replaceAux_skip]

theorem endsWith_append (p a : Str) : endsWith p (a ++ p) = true := by
  simp only [endsWith, List.reverse_append]
  exact startsWith_self_append _ _

theorem split_clean : ∀ (a : Str) {sep b : Str}, sep ≠ [] →
    (∀ a₂, a₂ ≠ [] → (∃ a₁, a = a₁ ++ a₂) → startsWith sep (a₂ ++ sep ++ b) = false) →
    containsSub sep b = false →
    pySplit sep (a ++ sep ++ b) = [a, b]
  | [], sep, b, hsep, _, hb => by
    obtain ⟨s0, st, rfl⟩ : ∃ s0 st, sep = s0 :: st := by
      cases sep with
      | nil => exact absurd rfl hsep
      | cons s0 st => exact ⟨s0, st, rfl⟩
    have h1 : startsWith (s0 :: st) (s0 :: (st ++ b)) = true := by
      simpa using startsWith_self_append (s0 :: st) b
    show splitAux (s0 :: st) (s0 :: (st ++ b)) 0 = [[], b]
    simp only [splitAux, h1, if_true]
    have hs : (s0 :: st).length - 1 = st.length := by simp
    rw [hs, splitAux_skip]
    have := split_no_occur (s0 :: st) b hb
    simp only [pySplit] at this
    rw [this]
  | c :: a', sep, b, hsep, ha, hb => by
    have h0 : startsWith sep ((c :: a') ++ sep ++ b) = false :=
      ha (c :: a') (by simp) ⟨[], rfl⟩
    have ha' : ∀ a₂, a₂ ≠ [] → (∃ a₁, a' = a₁ ++ a₂) →
        startsWith sep (a₂ ++ sep ++ b) = false := by
      intro a₂ hne ⟨a₁, he⟩
      exact ha a₂ hne ⟨c :: a₁, by simp [he]⟩
    have ih := split_clean a' hsep ha' hb
    simp only [pySplit] at ih ⊢
    have hcons : (c :: a') ++ sep ++ b = c :: (a' ++ sep ++ b) := by simp
    rw [hcons] at h0 ⊢
    simp only [splitAux, h0, Bool.false_eq_true, if_false, ih]

theorem no_cross {lc b : Str} (h1 : containsSub sepIn lc = false)
    (h4 : endsWith [' ', 'i', 'n'] lc = false) :
    ∀ a₂, a₂ ≠ [] → (∃ a₁, lc = a₁ ++ a₂) → startsWith sepIn (a₂ ++ sepIn ++ b) = false := by
  intro a₂ hne hex
  obtain ⟨a₁, he⟩ := hex
  by_contra hcon
  rw [Bool.not_eq_false] at hcon
  rcases a₂ with _ | ⟨x, _ | ⟨y, _ | ⟨z, _ | ⟨w, rest⟩⟩⟩⟩
  · exact hne rfl
  · have e1 : (('i' : Char) == ' ') = false := by decide
    simp [startsWith, sepIn, e1] at hcon
  · have e2 : (('n' : Char) == ' ') = false := by decide
    simp [startsWith, sepIn, e2] at hcon
  · simp only [sepIn, List.cons_append, List.nil_append, startsWith,
      Bool.and_eq_true, beq_iff_eq] at hcon
    obtain ⟨hx, hy, hz, -⟩ := hcon
    rw [he, ← hx, ← hy, ← hz] at h4
    rw [endsWith_append] at h4
    exact Bool.true_eq_false ▸ h4
  · simp only [sepIn, List.cons_append, startsWith, Bool.and_eq_true, beq_iff_eq] at hcon
    obtain ⟨hx, hy, hz, hw, -⟩ := hcon
    have hstart : startsWith sepIn (x :: y :: z :: w :: rest) = true := by
      simp [startsWith, sepIn, ← hx, ← hy, ← hz, ← hw]
    have : containsSub sepIn lc = true := by
      rw [he]
      exact containsSub_append_left a₁ (containsSub_of_startsWith hstart)
    rw [this] at h1
    exact Bool.true_eq_false ▸ h1

theorem parse_userInput {c s : Str} (h : validPair c s = true) :
    parseQuery (priceOfStr ++ c ++ sepIn ++ s) =
      ParseResult.parsed (pyStrip (pyLower c)) (pyStrip (pyLower s)) := by
  simp only [validPair, Bool.and_eq_true, Bool.not_eq_true'] at h
  obtain ⟨⟨⟨h1, h2⟩, h3⟩, h4⟩ := h
  have hl : pyLower (priceOfStr ++ c ++ sepIn ++ s)
      = priceOfStr ++ (pyLower c ++ sepIn ++ pyLower s) := by
    simp only [pyLower_append, pyLower_priceOf, pyLower_sepIn, List.append_assoc]
  have hrep : pyReplace priceOfStr [] (priceOfStr ++ (pyLower c ++ sepIn ++ pyLower s))
      = pyLower c ++ sepIn ++ pyLower s := by
    have hh := replace_head 'p' ['r', 'i', 'c', 'e', ' ', 'o', 'f', ' '] []
      (pyLower c ++ sepIn ++ pyLower s)
    have hno := replace_no_occur priceOfStr [] (pyLower c ++ sepIn ++ pyLower s) h3
    simp only [pyReplace] at hno
    simp only [pyReplace]
    exact hh.trans (by simpa using hno)
  have hsplit : pySplit sepIn (pyLower c ++ sepIn ++ pyLower s)
      = [pyLower c, pyLower s] :=
    split_clean (pyLower c) (by decide) (no_cross h1 h4) h2
  have hcont : containsSub sepIn (priceOfStr ++ (pyLower c ++ sepIn ++ pyLower s)) = true := by
    apply containsSub_append_left
    rw [List.append_assoc]
    apply containsSub_append_left
    exact containsSub_of_startsWith (startsWith_self_append _ _)
  simp only [parseQuery, hl, hcont, if_true, hrep, hsplit]

/-! ### Fuzzy-match lemmas -/

theorem foldl_best_const (score : Str → Str → Nat) (q m : Str) :
    ∀ (l : List Str) (b : Str), b = m → (∀ x ∈ l, x = m) →
      l.foldl (fun best x => if score q best < score q x then x else best) b = m
  | [], _, hb, _ => hb
  | x :: xs, b, hb, hl => by
    have hx : x = m := hl x (by simp)
    have hstep : (if score q b < score q x then x else b) = m := by
      split
      · exact hx
      · exact hb
    exact foldl_best_const score q m xs _ hstep (fun y hy => hl y (List.mem_cons_of_mem x hy))

theorem extractOne_const (score : Str → Str → Nat) (q m : Str) {l : List Str}
    (h0 : l ≠ []) (h : ∀ x ∈ l, x = m) : extractOne score q l = some m := by
  cases l with
  | nil => exact absurd rfl h0
  | cons c cs =>
    simp only [extractOne, Option.some.injEq]
    exact foldl_best_const score q m cs c (h c (by simp))
      (fun y hy => h y (List.mem_cons_of_mem c hy))

/-! ### Lexicographic-order lemmas -/

theorem strLe_total : ∀ a b : Str, strLe a b = true ∨ strLe b a = true
  | [], _ => Or.inl rfl
  | _ :: _, [] => Or.inr rfl
  | a :: as, b :: bs => by
    rcases Nat.lt_trichotomy a.toNat b.toNat with h | h | h
    · left
      simp [strLe, h]
    · have hab : ¬ a.toNat < b.toNat := by omega
      have hba : ¬ b.toNat < a.toNat := by omega
      rcases strLe_total as bs with ih | ih
      · left
        simp [strLe, hab, hba, ih]
      · right
        simp [strLe, hab, hba, ih]
    · right
      simp [strLe, h]

theorem strLe_trans : ∀ a b c : Str, strLe a b = true → strLe b c = true → strLe a c = true
  | [], _, _, _, _ => rfl
  | _ :: _, [], _, h1, _ => by simp [strLe] at h1
  | _ :: _, _ :: _, [], _, h2 => by simp [strLe] at h2
  | a :: as, b :: bs, c :: cs, h1, h2 => by
    simp only [strLe] at h1 h2 ⊢
    by_cases hab : a.toNat < b.toNat <;> by_cases hbc : b.toNat < c.toNat <;>
      by_cases hac : a.toNat < c.toNat <;>
      simp only [hab, hbc, hac, if_true, if_false] at h1 h2 ⊢ <;>
      first
        | rfl
        | omega
        | (by_cases hba : b.toNat < a.toNat <;> by_cases hcb : c.toNat < b.toNat <;>
            by_cases hca : c.toNat < a.toNat <;>
            simp only [hba, hcb, hca, if_true, if_false] at h1 h2 ⊢ <;>
            first
              | rfl
              | omega
              | exact strLe_trans as bs cs h1 h2
              | (exfalso; revert h1 h2; simp))

instance : IsTotal FormattedRecord dateGe :=
  ⟨fun a b => by
    rcases strLe_total b.date a.date with h | h
    · exact Or.inl h
    · exact Or.inr h⟩

instance : IsTrans FormattedRecord dateGe :=
  ⟨fun a b c hab hbc => strLe_trans c.date b.date a.date hbc hab⟩

/-! ### Route branch inversion -/

theorem route_table_inv {score : Str → Str → Nat} {u : Upstream} {r : Req}
    {st : Nat} {crop stt : Str} {frs : List FormattedRecord}
    (h : queryRoute score u r = ⟨st, RouteBody.table crop stt frs⟩) :
    ∃ recs, recs ≠ [] ∧ frs = recs.map formatRecord := by
  simp only [queryRoute] at h
  by_cases hv : (isFalsy r.commodity || isFalsy r.state) = true
  · rw [if_pos hv] at h
    simp at h
  · rw [if_neg hv] at h
    cases hm : (marketPrice u (routeInput r)).1 with
    | exn => rw [hm] at h; simp at h
    | ret body =>
      rw [hm] at h
      cases body with
      | formatError => simp at h
      | apiError msg => simp at h
      | ok crop2 st2 recs =>
        dsimp only at h
        cases hp : pipelineAfterMarket score r recs with
        | none => rw [hp] at h; simp at h
        | some l =>
          rw [hp] at h
          dsimp only at h
          by_cases hl : l.isEmpty = true
          · rw [if_pos hl] at h
            simp at h
          · rw [if_neg hl] at h
            simp only [RouteResponse.mk.injEq, RouteBody.table.injEq] at h
            refine ⟨l, ?_, h.2.2.2.symm⟩
            intro hnil
            rw [hnil] at hl
            exact hl rfl

/-! ### Claims -/

/-- Claim C1 (as amended): for every query string whose lower-cased form
does not contain the literal separator `" in "`, `market_price` returns
the FormatError result and issues no network call; conversely, the
FormatError branch is taken only for such strings - and since a string
that literally contains `" in "` also contains it after lower-casing, a
FormatError reply also certifies that the raw string lacks the literal
separator. -/
theorem C1_theorem (u : Upstream) (q : Str) :
    (containsSub sepIn (pyLower q) = false →
      marketPrice u q = (ToolOutcome.ret ToolBody.formatError, []))
    ∧ ((marketPrice u q).1 = ToolOutcome.ret ToolBody.formatError →
      containsSub sepIn (pyLower q) = false ∧ containsSub sepIn q = false ∧
        (marketPrice u q).2 = []) := by
  constructor
  · intro h
    simp [marketPrice, parseQuery, h]
  · intro h
    by_cases hc : containsSub sepIn (pyLower q) = true
    · exfalso
      rcases hsp : pySplit sepIn (pyReplace priceOfStr [] (pyLower q)) with
        _ | ⟨p1, _ | ⟨p2, _ | ⟨p3, rest⟩⟩⟩
      · simp [marketPrice, parseQuery, hc, hsp] at h
      · simp [marketPrice, parseQuery, hc, hsp] at h
      · cases hu : u ⟨pyTitle (pyStrip p2), pyTitle (pyStrip p1), 100⟩ <;>
          simp [marketPrice, parseQuery, hc, hsp, hu] at h
      · simp [marketPrice, parseQuery, hc, hsp] at h
    · have hf : containsSub sepIn (pyLower q) = false := by
        cases hcc : containsSub sepIn (pyLower q)
        · rfl
        · exact absurd hcc hc
      refine ⟨hf, ?_, ?_⟩
      · cases hr : containsSub sepIn q
        · rfl
        · have := containsSub_lower q pyLower_sepIn hr
          rw [this] at hf
          simp at hf
      · simp [marketPrice, parseQuery, hf]

/-- Witness for C1: a query without any form of the separator gets the
FormatError result and zero upstream calls. -/
theorem C1_witness :
    marketPrice emptyUpstream (String.toList "hello") =
      (ToolOutcome.ret ToolBody.formatError, []) :=
  (C1_theorem emptyUpstream (String.toList "hello")).1 (by decide)

/-- Counterexample to C1 as stated: `"price of a IN b"` does not contain
the literal separator `" in "`, yet the parser does not return the
FormatError result and the pipeline does issue a network call (the code
lower-cases the query before the separator check). -/
theorem C1_counterexample :
    containsSub sepIn (String.toList "price of a IN b") = false
    ∧ (marketPrice emptyUpstream (String.toList "price of a IN b")).1 ≠
        ToolOutcome.ret ToolBody.formatError
    ∧ (marketPrice emptyUpstream (String.toList "price of a IN b")).2 ≠ [] := by
  decide

/-- Claim C2 (confirmed): for every valid `(commodity, state)` pair, the
upstream filter parameters `filters[state]` and `filters[commodity]`
constructed by `market_price` from the canonical string
`"price of <commodity> in <state>"` are exactly the title-cased, trimmed
forms of the inputs after lower-casing. -/
theorem C2_theorem (u : Upstream) (c s : Str) (h : validPair c s = true) :
    (marketPrice u (priceOfStr ++ c ++ sepIn ++ s)).2 =
      [⟨pyTitle (pyStrip (pyLower s)), pyTitle (pyStrip (pyLower c)), 100⟩] := by
  have hp := parse_userInput h
  simp only [List.append_assoc] at hp
  cases hu : u ⟨pyTitle (pyStrip (pyLower s)), pyTitle (pyStrip (pyLower c)), 100⟩ <;>
    simp [marketPrice, hp, hu]

/-- Witness for C2 at `("Tomato", "Madhya Pradesh")`. -/
theorem C2_witness :
    (marketPrice emptyUpstream
        (priceOfStr ++ String.toList "Tomato" ++ sepIn ++ String.toList "Madhya Pradesh")).2 =
      [⟨pyTitle (pyStrip (pyLower (String.toList "Madhya Pradesh"))),
        pyTitle (pyStrip (pyLower (String.toList "Tomato"))), 100⟩] :=
  C2_theorem emptyUpstream _ _ (by decide)

/-- Claim C3 (confirmed): whenever the final record set is empty after
all filtering, the route answers with the `"No records found"` error
body; and a success (table) response never carries an empty records
array. -/
theorem C3_theorem (score : Str → Str → Nat) (u : Upstream) (r : Req) :
    (∀ crop st recs,
      (isFalsy r.commodity || isFalsy r.state) = false →
      (marketPrice u (routeInput r)).1 = ToolOutcome.ret (ToolBody.ok crop st recs) →
      pipelineAfterMarket score r recs = some [] →
      queryRoute score u r = ⟨404, RouteBody.error noRecordsMsg⟩)
    ∧ (∀ st crop stt frs,
      queryRoute score u r = ⟨st, RouteBody.table crop stt frs⟩ → frs ≠ []) := by
  constructor
  · intro crop st recs hv hm hp
    simp [queryRoute, hv, hm, hp]
  · intro st crop stt frs h
    obtain ⟨recs, hne, hfr⟩ := route_table_inv h
    rw [hfr]
    simpa using hne

/-- Witness for C3: empty upstream result, no market filter. -/
theorem C3_witness :
    queryRoute stubScore emptyUpstream
      ⟨some (String.toList "onion"), some (String.toList "kerala"), none⟩ =
      ⟨404, RouteBody.error noRecordsMsg⟩ :=
  (C3_theorem stubScore emptyUpstream _).1 (String.toList "onion") (String.toList "kerala")
    [] (by decide) (by decide) (by decide)

/-- Claim C4 (as amended): every failure of the query endpoint yields a
success-status (200) JSON error body, with two exceptions - a request
missing commodity/state yields status 400, and an empty final record set
(NoRecordsFound) yields status 404; the UpstreamError and catch-all
UnexpectedError outcomes do carry a 200 status. -/
theorem C4_theorem (score : Str → Str → Nat) (u : Upstream) (r : Req) :
    ((isFalsy r.commodity || isFalsy r.state) = true →
      queryRoute score u r = ⟨400, RouteBody.error requiredMsg⟩)
    ∧ ((isFalsy r.commodity || isFalsy r.state) = false →
      (queryRoute score u r).status = 200 ∨
        queryRoute score u r = ⟨404, RouteBody.error noRecordsMsg⟩) := by
  constructor
  · intro h
    simp [queryRoute, h]
  · intro h
    simp only [queryRoute, h, Bool.false_eq_true, if_false]
    cases hm : (marketPrice u (routeInput r)).1 with
    | exn => left; rfl
    | ret body =>
      cases body with
      | formatError => left; rfl
      | apiError msg => left; rfl
      | ok crop st recs =>
        dsimp only
        cases hp : pipelineAfterMarket score r recs with
        | none => left; rfl
        | some l =>
          dsimp only
          by_cases hl : l.isEmpty = true
          · rw [if_pos hl]
            right
            rfl
          · rw [if_neg hl]
            left
            rfl

/-- Witness for C4: a request with no commodity and no state gets the
400 response. -/
theorem C4_witness :
    queryRoute stubScore emptyUpstream ⟨none, none, none⟩ =
      ⟨400, RouteBody.error requiredMsg⟩ :=
  (C4_theorem stubScore emptyUpstream ⟨none, none, none⟩).1 (by decide)

/-- Counterexample to C4 as stated: the NoRecordsFound outcome (valid
request, upstream returns zero records) carries HTTP status 404, not the
claimed 200. -/
theorem C4_counterexample :
    (queryRoute stubScore emptyUpstream
        ⟨some (String.toList "onion"), some (String.toList "kerala"), none⟩).status = 404
    ∧ (queryRoute stubScore emptyUpstream
        ⟨some (String.toList "onion"), some (String.toList "kerala"), none⟩).status ≠ 200 := by
  decide

/-- Claim C5 (code bug): when a market name is supplied and the record
set is empty, the disambiguation step is not a no-op - `extractOne`
returns `None` for an empty choice list, the two-way unpack at line 147
raises `TypeError`, and the route answers with the catch-all
`"Unexpected error"` 200 body instead of reaching the empty-result check
that would produce `"No records found"`. -/
theorem C5_theorem :
    (∀ (score : Str → Str → Nat) (m : Str), marketStep score m [] = none)
    ∧ queryRoute stubScore emptyUpstream
        ⟨some (String.toList "onion"), some (String.toList "kerala"),
          some (String.toList "pune")⟩ =
        ⟨200, RouteBody.error unexpectedMsg⟩ := by
  constructor
  · intro score m
    rfl
  · decide

/-- Claim C6 (as amended): on upstream success the returned result
carries the records exactly as the upstream source returned them, and is
annotated with the lower-cased, trimmed (non-title-cased) forms of the
commodity and state the caller supplied. -/
theorem C6_theorem (u : Upstream) (c s : Str) (rs : List PriceRecord)
    (h : validPair c s = true) (hu : ∀ p, u p = Except.ok rs) :
    (marketPrice u (priceOfStr ++ c ++ sepIn ++ s)).1 =
      ToolOutcome.ret (ToolBody.ok (pyStrip (pyLower c)) (pyStrip (pyLower s)) rs) := by
  have hp := parse_userInput h
  simp only [List.append_assoc] at hp
  simp [marketPrice, hp, hu]

/-- Witness for C6 at `("Tomato", "Kerala")` with a one-record
upstream. -/
theorem C6_witness :
    (marketPrice (fun _ => Except.ok [puneRec])
        (priceOfStr ++ String.toList "Tomato" ++ sepIn ++ String.toList "Kerala")).1 =
      ToolOutcome.ret (ToolBody.ok (pyStrip (pyLower (String.toList "Tomato")))
        (pyStrip (pyLower (String.toList "Kerala"))) [puneRec]) :=
  C6_theorem _ _ _ _ (by decide) (fun _ => rfl)

/-- Counterexample to C6 as stated: the caller supplies `"Tomato"` and
`"Kerala"`, but the success body is annotated with `"tomato"` and
`"kerala"` - the lower-cased forms, not the original strings
unchanged. -/
theorem C6_counterexample :
    (marketPrice (fun _ => Except.ok [puneRec])
        (priceOfStr ++ String.toList "Tomato" ++ sepIn ++ String.toList "Kerala")).1 =
      ToolOutcome.ret (ToolBody.ok (String.toList "tomato") (String.toList "kerala") [puneRec])
    ∧ String.toList "tomato" ≠ String.toList "Tomato"
    ∧ String.toList "kerala" ≠ String.toList "Kerala" := by
  decide

/-- Claim C7 (confirmed): for every non-empty record set whose records
all carry the same market value, the fuzzy-match-and-filter step with
any candidate market name returns the set unchanged (idempotence of
market disambiguation on single-market sets). -/
theorem C7_theorem (score : Str → Str → Nat) (q m : Str) (recs : List PriceRecord)
    (h1 : recs ≠ []) (h2 : ∀ rec ∈ recs, rec.market = some m) :
    marketStep score q recs = some recs := by
  have hnames : ∀ x ∈ recs.map (fun rec => rec.market.getD []), x = m := by
    intro x hx
    simp only [List.mem_map] at hx
    obtain ⟨rec, hrec, rfl⟩ := hx
    rw [h2 rec hrec]
    rfl
  have hne : recs.map (fun rec => rec.market.getD []) ≠ [] := by
    simpa using h1
  simp only [marketStep, extractOne_const score q m hne hnames]
  congr 1
  apply List.filter_eq_self.mpr
  intro a ha
  rw [h2 a ha]
  simp

/-- Witness for C7: a two-record single-market set is unchanged. -/
theorem C7_witness :
    marketStep stubScore (String.toList "pun") [puneRec, puneRec] =
      some [puneRec, puneRec] :=
  C7_theorem stubScore (String.toList "pun") (String.toList "Pune") [puneRec, puneRec]
    (by decide) (by decide)

/-- Claim C8 (confirmed): the Result Formatter gives every surviving
record the full fixed key set - an absent upstream field becomes the
empty string, never a missing or null value - and every record in a
table response is the image of an upstream record under this
projection. -/
theorem C8_theorem :
    (∀ rec : PriceRecord, rec.market = none → (formatRecord rec).market = [])
    ∧ (∀ rec : PriceRecord, rec.min_price = none → (formatRecord rec).min_price = [])
    ∧ (∀ rec : PriceRecord, rec.max_price = none → (formatRecord rec).max_price = [])
    ∧ (∀ rec : PriceRecord, rec.modal_price = none → (formatRecord rec).modal_price = [])
    ∧ (∀ rec : PriceRecord, rec.arrival_date = none → (formatRecord rec).date = [])
    ∧ (∀ (score : Str → Str → Nat) (u : Upstream) (r : Req) (st : Nat) (crop stt : Str)
        (frs : List FormattedRecord),
        queryRoute score u r = ⟨st, RouteBody.table crop stt frs⟩ →
        ∃ recs : List PriceRecord, frs = recs.map formatRecord) := by
  refine ⟨?_, ?_, ?_, ?_, ?_, ?_⟩
  · intro rec h
    simp [formatRecord, h]
  · intro rec h
    simp [formatRecord, h]
  · intro rec h
    simp [formatRecord, h]
  · intro rec h
    simp [formatRecord, h]
  · intro rec h
    simp [formatRecord, h]
  · intro score u r st crop stt frs h
    obtain ⟨recs, -, hfr⟩ := route_table_inv h
    exact ⟨recs, hfr⟩

/-- Witness for C8: the all-absent record formats to the all-empty
row. -/
theorem C8_witness :
    (formatRecord ⟨none, none, none, none, none⟩).market = []
    ∧ (formatRecord ⟨none, none, none, none, none⟩).date = [] :=
  ⟨C8_theorem.1 ⟨none, none, none, none, none⟩ rfl,
    C8_theorem.2.2.2.2.1 ⟨none, none, none, none, none⟩ rfl⟩

/-- Claim C9 (confirmed against the spec-modelled historical variant):
the historical-mode formatter returns the records sorted by
`arrival_date` descending under lexicographic string comparison - the
output is a permutation of the input, pairwise descending on the date
field - and on the spec scenario dates `2024-01-05`, `2024-03-01`,
`2024-02-10` the output order is `2024-03-01`, `2024-02-10`,
`2024-01-05`. -/
theorem C9_theorem :
    (∀ rs : List FormattedRecord,
      List.Sorted dateGe (historicalSort rs) ∧ List.Perm (historicalSort rs) rs)
    ∧ historicalSort [histRec "2024-01-05", histRec "2024-03-01", histRec "2024-02-10"] =
        [histRec "2024-03-01", histRec "2024-02-10", histRec "2024-01-05"] := by
  constructor
  · intro rs
    exact ⟨List.sorted_insertionSort dateGe rs, List.perm_insertionSort dateGe rs⟩
  · decide

/-- Claim C10 (as amended): for every query whose lower-cased form
contains `" in "` and whose lower-cased form, after removal of every
occurrence of `"price of "`, still contains `" in "` two or more times
(i.e. splits into three or more parts), `market_price` does not return a
FormatError result: the two-way split-and-unpack raises outside the
`try` block, and the route answers with the catch-all UnexpectedError
body. -/
theorem C10_theorem (u : Upstream) (q : Str)
    (h1 : containsSub sepIn (pyLower q) = true)
    (h2 : 3 ≤ (pySplit sepIn (pyReplace priceOfStr [] (pyLower q))).length) :
    marketPrice u q = (ToolOutcome.exn, [])
    ∧ ∀ (score : Str → Str → Nat) (r : Req),
        (isFalsy r.commodity || isFalsy r.state) = false →
        routeInput r = q →
        queryRoute score u r = ⟨200, RouteBody.error unexpectedMsg⟩ := by
  have hparse : parseQuery q = ParseResult.unpackExn := by
    simp only [parseQuery, h1, if_true]
    rcases hsp : pySplit sepIn (pyReplace priceOfStr [] (pyLower q)) with
      _ | ⟨p1, _ | ⟨p2, _ | ⟨p3, rest⟩⟩⟩
    · rfl
    · rfl
    · exfalso
      rw [hsp] at h2
      simp at h2
    · rfl
  constructor
  · simp [marketPrice, hparse]
  · intro score r hv hq
    simp [queryRoute, hv, hq, marketPrice, hparse]

/-- Witness for C10: `"price of a in b in c"` splits into three parts,
`market_price` raises, and the route returns the catch-all body. -/
theorem C10_witness :
    marketPrice emptyUpstream (String.toList "price of a in b in c") =
      (ToolOutcome.exn, [])
    ∧ queryRoute stubScore emptyUpstream
        ⟨some (String.toList "a"), some (String.toList "b in c"), none⟩ =
        ⟨200, RouteBody.error unexpectedMsg⟩ := by
  have h := C10_theorem emptyUpstream (String.toList "price of a in b in c")
    (by decide) (by decide)
  exact ⟨h.1, h.2 stubScore ⟨some (String.toList "a"), some (String.toList "b in c"), none⟩
    (by decide) (by decide)⟩

/-- Counterexample to C10 as stated: `"xprice of in y in z"` contains
the separator `" in "` twice (witnessed by the explicit decomposition),
yet `market_price` neither raises nor returns FormatError - removing
`"price of "` destroys the first separator occurrence, the split yields
exactly two parts, and a normal network call is made. -/
theorem C10_counterexample :
    String.toList "xprice of in y in z" =
      String.toList "xprice of" ++ sepIn ++ String.toList "y" ++ sepIn ++ String.toList "z"
    ∧ (marketPrice emptyUpstream (String.toList "xprice of in y in z")).1 ≠ ToolOutcome.exn
    ∧ (marketPrice emptyUpstream (String.toList "xprice of in y in z")).1 ≠
        ToolOutcome.ret ToolBody.formatError
    ∧ (marketPrice emptyUpstream (String.toList "xprice of in y in z")).2 ≠ [] := by
  decide
